import Mathlib

/-!
Verification of the DailyScry card rendering and pagination pipeline.

The Rust sources are embedded shallowly:

* `src/util.rs` (`split_text`): Rust `String::len` and slicing work on UTF-8
  bytes, so a string is modelled as a `List Nat` of Unicode scalar values and
  `byteLen` sums each scalar's UTF-8 width.  Slicing at a byte index that is
  not a character boundary (or out of range) panics in Rust; it is modelled by
  `Option`-returning `byteTake`/`byteDrop` whose `none` maps to a `panicked`
  result.  The `while` loop can fail to terminate (available width 1), so the
  loop is run on explicit fuel and a `fuelOut` result marks divergence:
  running with fuel `byteLen text + 1` is exact, because every terminating run
  shortens the text by at least one byte per iteration.  Arithmetic follows
  Rust's checked (debug) semantics: a `usize` subtraction below zero panics.

* `src/format.rs`: the `string_builder::Builder` only accumulates appended
  strings (its final `.string()` call can fail only on invalid UTF-8, which
  appended `String`s never produce), so every helper that appends to the
  builder is modelled as a function returning the appended fragment, and each
  `format_*` function is the concatenation of its fragments in append order.
  `Option::unwrap` on `None` and out-of-bounds indexing are Rust panics,
  modelled as the `Err.panicked` error of an `Except`.

* `src/mastodon/mod.rs` (`post`): only the post-issuing skeleton matters for
  the thread-ordering claim.  The sequence of `post_status` calls made on the
  success path is computed as a pure trace, parameterised by an oracle giving
  the server's answer to each call in order.
-/

/-! ## Definitions -/

/-- Number of bytes the UTF-8 encoding of a Unicode scalar value uses. -/
def utf8Width (c : Nat) : Nat :=
  if c < 128 then 1 else if c < 2048 then 2 else if c < 65536 then 3 else 4

/-- Rust `str::len`: total number of UTF-8 bytes. -/
def byteLen : List Nat → Nat
  | [] => 0
  | c :: cs => utf8Width c + byteLen cs

/-- Turn a Lean string literal into the rune-list model of a Rust `String`. -/
def strToRunes (s : String) : List Nat := s.toList.map Char.toNat

/-- The scalar value of `…` (HORIZONTAL ELLIPSIS, U+2026, 3 UTF-8 bytes). -/
def ell : Nat := 8230

/-- `util.rs`: `enum Additional { Text(String), Number(usize) }`. -/
inductive Additional where
  | text (s : List Nat)
  | number (n : Nat)

deriving DecidableEq, Repr

/-- Length charged for one reservation: `Text(text) => text.len()` is the
byte length, `Number(number) => number`. -/
def additionalLen : Additional → Nat
  | .text s => byteLen s
  | .number n => n

/-- `util.rs` lines 17-23: the fold computing `character_already_used`. -/
def character_already_used (adds : List Additional) : Nat :=
  (adds.map additionalLen).foldl (· + ·) 0

/-- Outcome of running `split_text`: a normal return, a Rust panic, or
exhaustion of the fuel bound (the loop never finishes). -/
inductive SplitRes where
  | ok (texts : List (List Nat))
  | panicked
  | fuelOut

deriving DecidableEq, Repr

/-- Rust byte slice `s[..k]`: succeeds only when `k` lands on a character
boundary within the string, otherwise the program panics (`none`). -/
def byteTake : Nat → List Nat → Option (List Nat)
  | k, [] => if k = 0 then some [] else none
  | k, c :: cs =>
    if k = 0 then some []
    else if utf8Width c ≤ k then (byteTake (k - utf8Width c) cs).map (c :: ·)
    else none

/-- Rust byte slice `s[k..]`: same boundary rules as `byteTake`. -/
def byteDrop : Nat → List Nat → Option (List Nat)
  | k, [] => if k = 0 then some [] else none
  | k, c :: cs =>
    if k = 0 then some (c :: cs)
    else if utf8Width c ≤ k then byteDrop (k - utf8Width c) cs
    else none

/-- The `while` loop of `split_text` (`util.rs` lines 28-39), with the pushed
chunks accumulated in `acc` and an explicit fuel bound.  One iteration:
if the text is empty the loop exits; if it fits in `w` it is pushed and the
loop breaks; otherwise the first `w - 1` bytes plus an ellipsis are pushed
and the text advances past those `w - 1` bytes.  `w = 0` makes `w - 1`
underflow, a Rust panic. -/
def split_text_go (w : Nat) : List (List Nat) → List Nat → Nat → SplitRes
  | _, _, 0 => .fuelOut
  | acc, rest, fuel + 1 =>
    if byteLen rest = 0 then .ok acc
    else if byteLen rest ≤ w then .ok (acc ++ [rest])
    else if w = 0 then .panicked
    else
      match byteTake (w - 1) rest, byteDrop (w - 1) rest with
      | some pre, some suf => split_text_go w (acc ++ [pre ++ [ell]]) suf (fuel)
      | _, _ => .panicked

/-- `util.rs` `split_text`.  The subtraction
`character_limit - character_already_used` is a `usize` subtraction and
panics when the reservations exceed the limit.  Fuel `byteLen text + 1`
is exact (see module comment). -/
def split_text (text : List Nat) (character_limit : Nat) (adds : List Additional) :
    SplitRes :=
  let used := character_already_used adds
  if character_limit < used then .panicked
  else split_text_go (character_limit - used) [] text (byteLen text + 1)

/-- Modelled from the claim's words (C1/C2): the pagination loop counted in
Unicode scalars — while the remaining text is longer than the available
width, emit its first `width - 1` characters plus one ellipsis and advance
past them; when the remainder fits, emit it unchanged and stop. -/
def paginate_claimed_go (w : Nat) : List Nat → Nat → SplitRes
  | _, 0 => .fuelOut
  | rest, fuel + 1 =>
    if rest.length ≤ w then .ok [rest]
    else
      match paginate_claimed_go w (rest.drop (w - 1)) fuel with
      | .ok cs => .ok ((rest.take (w - 1) ++ [ell]) :: cs)
      | e => e

/-- Modelled from the claim's words: reserved lengths counted in Unicode
scalars. -/
def scalar_reserved (adds : List Additional) : Nat :=
  (adds.map fun a => match a with | .text s => s.length | .number n => n).foldl (· + ·) 0

/-- Modelled from the claim's words (C1/C2): the claimed paginator. -/
def paginate_claimed (text : List Nat) (limit : Nat) (adds : List Additional) : SplitRes :=
  paginate_claimed_go (limit - scalar_reserved adds) text (text.length + 1)

/-- The amended pagination contract, stated for text whose units are one byte
each (ASCII): no chunk for an empty remainder, a lone unchanged chunk for a
remainder that fits, otherwise the first `w - 1` units plus an ellipsis
followed by the chunks of the rest.  The final branch is outside the
contract (`w ≤ 1` loops forever in the source) and is never reached under
the hypotheses of the theorems below. -/
def paginate_amended (w : Nat) (text : List Nat) : List (List Nat) :=
  if text.length = 0 then []
  else if text.length ≤ w then [text]
  else if h : 2 ≤ w then (text.take (w - 1) ++ [ell]) :: paginate_amended w (text.drop (w - 1))
  else [text]
termination_by text.length
decreasing_by
  simp only [List.length_drop]
  omega

/-- Undo pagination: drop the trailing ellipsis of every chunk but the last
and concatenate. -/
def unsplit : List (List Nat) → List Nat
  | [] => []
  | [c] => c
  | c :: c2 :: cs => c.dropLast ++ unsplit (c2 :: cs)

/-- Substring test on character lists (helper for `contains_str`). -/
def contains_sub (pat : List Char) : List Char → Bool
  | [] => pat.isEmpty
  | c :: t => pat.isPrefixOf (c :: t) || contains_sub pat t

/-- Rust `str::contains` with a string pattern: substring containment. -/
def contains_str (hay pat : String) : Bool := contains_sub pat.toList hay.toList

/-- `scryfall::card::Layout`, restricted to the variants named in
`format.rs`; `other` stands for every variant caught by the `_` arm of
`format_card`.  `Class` and `Case` are Lean keywords, hence the suffix. -/
inductive Layout where
  | normal | meld | leveler | classLayout | saga | prototype | host | augment
  | token | emblem | mutate | planar | scheme | vanguard | caseLayout
  | split | flip | adventure
  | transform | modalDfc | reversibleCard | doubleFacedToken | artSeries
  | other

deriving DecidableEq, Repr

/-- The fields of `scryfall::card::CardFace` read by `format.rs`. -/
structure CardFace where
  name : String
  mana_cost : String
  type_line : Option String
  oracle_text : Option String
  flavor_text : Option String
  power : Option String
  toughness : Option String
  loyalty : Option String
  artist : Option String

deriving DecidableEq, Repr

/-- The fields of `scryfall::card::Card` read by `format.rs`. -/
structure Card where
  name : String
  mana_cost : Option String
  type_line : Option String
  oracle_text : Option String
  flavor_text : Option String
  power : Option String
  toughness : Option String
  loyalty : Option String
  hand_modifier : Option String
  life_modifier : Option String
  artist : Option String
  layout : Layout
  card_faces : Option (List CardFace)

deriving DecidableEq, Repr

/-- Mirror of `error.rs` `enum Error` (payloads dropped), extended with
`panicked`, which models a Rust panic (`Option::unwrap` on `None`,
out-of-bounds indexing, `usize` underflow): control never returns to the
caller with a value.  Note the enum has no variant for a data-integrity or
budget-exhaustion failure. -/
inductive Err where
  | scryfallError | megalodonError | teloxideError | readConfiguration
  | imageNotFound | textNotFound | unknownCardLayout | imageUploadFailed
  | imageRotationFailed
  | panicked

deriving DecidableEq, Repr

/-- `format.rs` `enum CardOrFace`. -/
inductive CardOrFace where
  | card (c : Card)
  | face (f : CardFace)

deriving DecidableEq, Repr

/-- Fragment appended by `name_and_mana_cost`. -/
def name_and_mana_cost (cf : CardOrFace) : String :=
  let name := match cf with
    | .card c => c.name
    | .face f => f.name
  let mana_cost := match cf with
    | .card c => c.mana_cost.getD ""
    | .face f => f.mana_cost
  name ++ (if mana_cost.isEmpty then "" else "\t" ++ mana_cost)

/-- Fragment appended by `type_line`. -/
def type_line (cf : CardOrFace) : String :=
  let tl := match cf with
    | .card c => c.type_line.getD ""
    | .face f => f.type_line.getD ""
  "\n" ++ tl

/-- Fragment appended by `oracle_text`. -/
def oracle_text (cf : CardOrFace) : String :=
  let o := match cf with
    | .card c => c.oracle_text.getD ""
    | .face f => f.oracle_text.getD ""
  if o.isEmpty then "" else "\n" ++ o

/-- Fragment appended by `flavour_text`. -/
def flavour_text (cf : CardOrFace) : String :=
  let fl := match cf with
    | .card c => c.flavor_text
    | .face f => f.flavor_text
  match fl with
  | some f => "\n\n" ++ f
  | none => ""

/-- Fragment appended by `power_and_toughness`. -/
def power_and_toughness (cf : CardOrFace) : String :=
  let p := match cf with
    | .card c => c.power.getD ""
    | .face f => f.power.getD ""
  let t := match cf with
    | .card c => c.toughness.getD ""
    | .face f => f.toughness.getD ""
  "\n\n" ++ p ++ "/" ++ t

/-- Fragment appended by `artist`. -/
def artist (cf : CardOrFace) : String :=
  let a := match cf with
    | .card c => c.artist
    | .face f => f.artist
  match a with
  | some a => "\n\nIllustrated by " ++ a
  | none => ""

/-- Fragment appended by `loyalty`. -/
def loyalty (cf : CardOrFace) : String :=
  let l := match cf with
    | .card c => c.loyalty
    | .face f => f.loyalty
  match l with
  | some l => "\nLoyalty: " ++ l
  | none => ""

/-- Fragment appended by `vanguard_stats` (nothing for a face: the source
returns early there). -/
def vanguard_stats (cf : CardOrFace) : String :=
  match cf with
  | .face _ => ""
  | .card c =>
    match c.hand_modifier, c.life_modifier with
    | some h, some l => "\n\nHand Size: " ++ h ++ "\nStarting Life: " ++ l
    | _, _ => ""

/-- `format_creature`: the fragments it appends, in order. -/
def format_creature (cf : CardOrFace) : String :=
  name_and_mana_cost cf ++ type_line cf ++ oracle_text cf ++ flavour_text cf ++
    power_and_toughness cf

/-- `format_non_creature`. -/
def format_non_creature (cf : CardOrFace) : String :=
  name_and_mana_cost cf ++ type_line cf ++ oracle_text cf ++ flavour_text cf

/-- `format_planeswalker`. -/
def format_planeswalker (cf : CardOrFace) : String :=
  name_and_mana_cost cf ++ type_line cf ++ oracle_text cf ++ loyalty cf

/-- `format_token`. -/
def format_token (cf : CardOrFace) : String :=
  name_and_mana_cost cf ++ type_line cf

/-- `format_vanguard`: note the stat block is appended before the flavour
text. -/
def format_vanguard (cf : CardOrFace) : String :=
  name_and_mana_cost cf ++ type_line cf ++ oracle_text cf ++ vanguard_stats cf ++
    flavour_text cf

/-- `format_art_card`. -/
def format_art_card (cf : CardOrFace) : String :=
  name_and_mana_cost cf ++ type_line cf

/-- `format_normal_layout`.  `card.type_line.clone().unwrap()` panics when
the type line is absent.  The `Creature` and `Planeswalker` branches return
early; the `Vanguard`, non-creature and `Token` branches all append to the
same builder, so several may contribute. -/
def format_normal_layout (card : Card) : Except Err (List String) :=
  match card.type_line with
  | none => .error .panicked
  | some tl =>
    if contains_str tl "Creature" then
      .ok [format_creature (.card card) ++ artist (.card card)]
    else if contains_str tl "Planeswalker" then
      .ok [format_planeswalker (.card card) ++ artist (.card card)]
    else
      let s1 := if contains_str tl "Vanguard" then format_vanguard (.card card) else ""
      let s2 :=
        if contains_str tl "Instant" || contains_str tl "Sorcery" ||
            contains_str tl "Artifact" || contains_str tl "Enchantment" ||
            contains_str tl "Land" || contains_str tl "Phenomenon" ||
            contains_str tl "Plane" || contains_str tl "Scheme" ||
            contains_str tl "Emblem" || contains_str tl "Battle" then
          format_non_creature (.card card)
        else ""
      let s3 := if tl = "Token" then format_token (.card card) else ""
      .ok [s1 ++ s2 ++ s3 ++ artist (.card card)]

/-- The closure mapped over the faces in `format_multiple_faces_layout`.
`face.type_line.clone().unwrap()` panics when absent; only the `Creature`
branch returns early, the remaining branches append cumulatively. -/
def format_face (face : CardFace) : Except Err String :=
  match face.type_line with
  | none => .error .panicked
  | some tl =>
    if contains_str tl "Creature" then .ok (format_creature (.face face))
    else
      let s1 := if contains_str tl "Planeswalker" then format_planeswalker (.face face) else ""
      let s2 :=
        if contains_str tl "Instant" || contains_str tl "Sorcery" ||
            contains_str tl "Artifact" || contains_str tl "Enchantment" ||
            contains_str tl "Land" || contains_str tl "Emblem" ||
            contains_str tl "Battle" then
          format_non_creature (.face face)
        else ""
      let s3 := if tl = "Token" then format_token (.face face) else ""
      let s4 := if tl = "Card" then format_art_card (.face face) else ""
      .ok (s1 ++ s2 ++ s3 ++ s4)

/-- Rust `Iterator::collect::<Result<Vec<_>, _>>`: stop at the first error,
otherwise collect the successes in order. -/
def collect_results (f : α → Except ε β) : List α → Except ε (List β)
  | [] => .ok []
  | x :: xs =>
    match f x with
    | .error e => .error e
    | .ok y =>
      match collect_results f xs with
      | .error e => .error e
      | .ok ys => .ok (y :: ys)

/-- `format_multiple_faces_layout`.  `card.card_faces.clone().unwrap()`
panics when the face list is absent. -/
def format_multiple_faces_layout (card : Card) : Except Err (List String) :=
  match card.card_faces with
  | none => .error .panicked
  | some faces => collect_results format_face faces

/-- `format_single_image_multiple_faces_layout`: join the face blocks with a
blank line and append the primary card's artist credit. -/
def format_single_image_multiple_faces_layout (card : Card) : Except Err (List String) :=
  match format_multiple_faces_layout card with
  | .error e => .error e
  | .ok faces => .ok [String.intercalate "\n\n" faces ++ artist (.card card)]

/-- `format_card`: dispatch on the layout tag. -/
def format_card (card : Card) : Except Err (List String) :=
  match card.layout with
  | .normal | .meld | .leveler | .classLayout | .saga | .prototype | .host
  | .augment | .token | .emblem | .mutate | .planar | .scheme | .vanguard
  | .caseLayout => format_normal_layout card
  | .split | .flip | .adventure => format_single_image_multiple_faces_layout card
  | .transform | .modalDfc | .reversibleCard | .doubleFacedToken
  | .artSeries => format_multiple_faces_layout card
  | .other => .error .unknownCardLayout

/-- `get_artist`: for the five separate-image layouts it builds the artist
fragment from `faces[0]` (panicking when the face list is absent or empty)
and always returns `Some` of the built string; every other layout yields
`None`. -/
def get_artist (card : Card) : Except Err (Option String) :=
  match card.layout with
  | .transform | .modalDfc | .reversibleCard | .doubleFacedToken | .artSeries =>
    match card.card_faces with
    | none => .error .panicked
    | some [] => .error .panicked
    | some (f :: _) => .ok (some (artist (.face f)))
  | _ => .ok none

/-- `megalodon::megalodon::PostStatusOutput`, with a status carrying its id. -/
inductive PostStatusOutputM where
  | status (id : String)
  | scheduledStatus

deriving DecidableEq, Repr

/-- The reply id the loop extracts from a post result (`mod.rs` lines 55-58
and 67-70): the status id, or `""` for a scheduled status. -/
def output_id : PostStatusOutputM → String
  | .status i => i
  | .scheduledStatus => ""

/-- One `post_status` call issued by `post`: the root call carries the media
ids, a reply call carries the parent status id. -/
inductive PostCall where
  | root (body : String) (media : List String)
  | reply (body : String) (parent : String)

deriving DecidableEq, Repr

/-- The reply-issuing loop of `post` (`mod.rs` lines 62-72) as a trace.
`outputs n` is the server's answer to the `n`-th `post_status` call of the
whole function (call `0` is the root); `k` is the index of the next call and
`reply_id` the id taken from call `k - 1`.  Each chunk is posted with the
current `reply_id`, after which `reply_id` becomes the id of the post just
created. -/
def reply_calls (suffix : String) (outputs : Nat → PostStatusOutputM) :
    List String → Nat → String → List PostCall
  | [], _, _ => []
  | t :: ts, k, reply_id =>
    .reply (t ++ suffix) reply_id :: reply_calls suffix outputs ts (k + 1) (output_id (outputs k))

/-- The sequence of `post_status` calls issued by `post` on its success path
(`mod.rs` lines 49-74): `splitted_texts[0]` panics on an empty list (`none`);
otherwise the root call posts chunk 0 with all media ids and every later
chunk is posted as a reply to the id extracted from the previous call.
Every posted body is the chunk followed by the fixed
`artist ++ link ++ hashtags` trailer, abstracted as `suffix`. -/
def post_call_sequence (splitted_texts : List String) (suffix : String)
    (media : List String) (outputs : Nat → PostStatusOutputM) : Option (List PostCall) :=
  match splitted_texts with
  | [] => none
  | t :: ts =>
    some (.root (t ++ suffix) media :: reply_calls suffix outputs ts 1 (output_id (outputs 0)))

/-- Text all of whose scalars are ASCII: one byte per character. -/
def ascii_runes (s : List Nat) : Prop := ∀ c ∈ s, c < 128

instance : DecidablePred ascii_runes := fun s =>
  inferInstanceAs (Decidable (∀ c ∈ s, c < 128))

/-- Index (0-based) of the first occurrence of `pat` as a contiguous sublist
of `hay`; equals `hay.length` when `pat` never occurs. -/
def first_sub_pos (pat : List Char) : List Char → Nat
  | [] => 0
  | c :: t => if pat.isPrefixOf (c :: t) then 0 else first_sub_pos pat t + 1

/-- The flavor-text field read by `flavour_text` (the source's match). -/
def cf_flavor : CardOrFace → Option String
  | .card c => c.flavor_text
  | .face f => f.flavor_text

/-- The power field read by `power_and_toughness`. -/
def cf_power : CardOrFace → String
  | .card c => c.power.getD ""
  | .face f => f.power.getD ""

/-- The toughness field read by `power_and_toughness`. -/
def cf_toughness : CardOrFace → String
  | .card c => c.toughness.getD ""
  | .face f => f.toughness.getD ""

/-- A single-face creature card with both flavor text and power/toughness. -/
def bearCard : Card :=
  { name := "Grizzly Bears", mana_cost := some "{1}{G}",
    type_line := some "Creature — Bear", oracle_text := none,
    flavor_text := some "Ferocious.", power := some "2", toughness := some "2",
    loyalty := none, hand_modifier := none, life_modifier := none,
    artist := some "Jeff A. Menges", layout := .normal, card_faces := none }

/-- A vanguard card with both stat modifiers and flavor text. -/
def ertaiCard : Card :=
  { name := "Ertai", mana_cost := none, type_line := some "Vanguard",
    oracle_text := some "Creatures you control have hexproof.",
    flavor_text := some "A wizard of renown.", power := none, toughness := none,
    loyalty := none, hand_modifier := some "-1", life_modifier := some "+4",
    artist := some "Randy Gallegos", layout := .vanguard, card_faces := none }

/-- A single-face card whose type line contains both `Vanguard` and `Land`. -/
def vanguardLandCard : Card :=
  { name := "Oddity", mana_cost := none, type_line := some "Vanguard Land",
    oracle_text := some "Some rules text.", flavor_text := none, power := none,
    toughness := none, loyalty := none, hand_modifier := some "-1",
    life_modifier := some "+2", artist := some "Nobody", layout := .normal,
    card_faces := none }

/-- A single-face card whose type line contains both `Creature` and `Land`. -/
def creatureLandCard : Card :=
  { name := "Dryad Arbor", mana_cost := none,
    type_line := some "Land Creature — Forest Dryad", oracle_text := none,
    flavor_text := none, power := some "1", toughness := some "1",
    loyalty := none, hand_modifier := none, life_modifier := none,
    artist := some "Eric Fortune", layout := .normal, card_faces := none }

/-- A transform-layout card whose face list is absent. -/
def transformNoFacesCard : Card :=
  { name := "Lost Record", mana_cost := none, type_line := some "Creature",
    oracle_text := none, flavor_text := none, power := none, toughness := none,
    loyalty := none, hand_modifier := none, life_modifier := none,
    artist := none, layout := .transform, card_faces := none }

/-- A modal double-faced card whose face list is absent. -/
def mdfcNoFacesCard : Card :=
  { name := "Lost Modal Record", mana_cost := none, type_line := some "Land",
    oracle_text := none, flavor_text := none, power := none, toughness := none,
    loyalty := none, hand_modifier := none, life_modifier := none,
    artist := none, layout := .modalDfc, card_faces := none }

/-- A split-layout (shared-image) card whose face list is absent. -/
def splitNoFacesCard : Card :=
  { name := "Lost Split Record", mana_cost := none, type_line := some "Instant",
    oracle_text := none, flavor_text := none, power := none, toughness := none,
    loyalty := none, hand_modifier := none, life_modifier := none,
    artist := none, layout := .split, card_faces := none }

/-- A flip-layout (shared-image) card whose face list is absent. -/
def flipNoFacesCard : Card :=
  { name := "Lost Flip Record", mana_cost := none, type_line := some "Creature",
    oracle_text := none, flavor_text := none, power := none, toughness := none,
    loyalty := none, hand_modifier := none, life_modifier := none,
    artist := none, layout := .flip, card_faces := none }

/-- First face of a concrete transform card. -/
def kytheonFace : CardFace :=
  { name := "Kytheon, Hero of Akros", mana_cost := "{W}",
    type_line := some "Legendary Creature — Human Soldier",
    oracle_text := some "Heroic things.", flavor_text := none,
    power := some "2", toughness := some "1", loyalty := none,
    artist := some "Willian Murai" }

/-- Second face of a concrete transform card. -/
def gideonFace : CardFace :=
  { name := "Gideon, Battle-Forged", mana_cost := "",
    type_line := some "Legendary Planeswalker — Gideon",
    oracle_text := some "Planeswalker things.", flavor_text := none,
    power := none, toughness := none, loyalty := some "3", artist := none }

/-- A concrete transform card with two faces. -/
def kytheonCard : Card :=
  { name := "Kytheon, Hero of Akros // Gideon, Battle-Forged",
    mana_cost := some "{W}", type_line := none, oracle_text := none,
    flavor_text := none, power := none, toughness := none, loyalty := none,
    hand_modifier := none, life_modifier := none, artist := none,
    layout := .transform, card_faces := some [kytheonFace, gideonFace] }

deriving instance DecidableEq for Except

/-! ## Theorems -/

theorem utf8Width_pos (c : Nat) : 0 < utf8Width c := by
  unfold utf8Width
  split <;> [skip; split] <;> [omega; omega; split <;> omega]

theorem utf8Width_ascii {c : Nat} (h : c < 128) : utf8Width c = 1 := by
  unfold utf8Width
  simp [h]

theorem byteLen_ascii {s : List Nat} (h : ascii_runes s) : byteLen s = s.length := by
  induction s with
  | nil => rfl
  | cons c cs ih =>
    have hc : c < 128 := h c (List.mem_cons_self c cs)
    have hcs : ascii_runes cs := fun x hx => h x (List.mem_cons_of_mem c hx)
    simp [byteLen, utf8Width_ascii hc, ih hcs, Nat.add_comm]

theorem length_le_byteLen (s : List Nat) : s.length ≤ byteLen s := by
  induction s with
  | nil => simp [byteLen]
  | cons c cs ih =>
    have := utf8Width_pos c
    simp only [byteLen, List.length_cons]
    omega

theorem byteLen_eq_zero {s : List Nat} : byteLen s = 0 ↔ s = [] := by
  cases s with
  | nil => simp [byteLen]
  | cons c cs =>
    have := utf8Width_pos c
    simp only [byteLen]
    constructor
    · intro h; omega
    · intro h; exact absurd h (by simp)

theorem byteTake_zero (s : List Nat) : byteTake 0 s = some [] := by
  cases s <;> simp [byteTake]

theorem byteDrop_zero (s : List Nat) : byteDrop 0 s = some s := by
  cases s <;> simp [byteDrop]

theorem byteTake_ascii {s : List Nat} (h : ascii_runes s) :
    ∀ k, k ≤ s.length → byteTake k s = some (s.take k) := by
  induction s with
  | nil =>
    intro k hk
    have hk0 : k = 0 := by simpa using hk
    subst hk0
    simp [byteTake]
  | cons c cs ih =>
    intro k hk
    cases k with
    | zero => simp [byteTake]
    | succ k =>
      have hc : c < 128 := h c (List.mem_cons_self c cs)
      have hcs : ascii_runes cs := fun x hx => h x (List.mem_cons_of_mem c hx)
      have hw : utf8Width c = 1 := utf8Width_ascii hc
      have hk' : k ≤ cs.length := by simpa using hk
      simp [byteTake, hw, ih hcs k hk']

theorem byteDrop_ascii {s : List Nat} (h : ascii_runes s) :
    ∀ k, k ≤ s.length → byteDrop k s = some (s.drop k) := by
  induction s with
  | nil =>
    intro k hk
    have hk0 : k = 0 := by simpa using hk
    subst hk0
    simp [byteDrop]
  | cons c cs ih =>
    intro k hk
    cases k with
    | zero => simp [byteDrop]
    | succ k =>
      have hc : c < 128 := h c (List.mem_cons_self c cs)
      have hcs : ascii_runes cs := fun x hx => h x (List.mem_cons_of_mem c hx)
      have hw : utf8Width c = 1 := utf8Width_ascii hc
      have hk' : k ≤ cs.length := by simpa using hk
      simp [byteDrop, hw, ih hcs k hk']

theorem byteDrop_byteLen {s : List Nat} :
    ∀ {k t}, byteDrop k s = some t → k ≤ byteLen s ∧ byteLen t = byteLen s - k := by
  induction s with
  | nil =>
    intro k t h
    by_cases hk : k = 0 <;> simp [byteDrop, hk] at h
    subst h hk; simp [byteLen]
  | cons c cs ih =>
    intro k t h
    by_cases hk : k = 0
    · subst hk
      rw [byteDrop_zero] at h
      cases h
      simp
    · have hw := utf8Width_pos c
      simp only [byteDrop, hk, if_neg hk, ite_false] at h
      by_cases hle : utf8Width c ≤ k
      · simp only [hle, if_true] at h
        obtain ⟨h1, h2⟩ := ih h
        constructor
        · simp only [byteLen]; omega
        · simp only [byteLen]; omega
      · simp [hle] at h

theorem paginate_amended_eq (w : Nat) (text : List Nat) :
    paginate_amended w text =
      if text.length = 0 then []
      else if text.length ≤ w then [text]
      else if 2 ≤ w then
        (text.take (w - 1) ++ [ell]) :: paginate_amended w (text.drop (w - 1))
      else [text] := by
  rw [paginate_amended]
  simp only [dite_eq_ite]

theorem paginate_amended_ne_nil {w : Nat} {text : List Nat} (h : text ≠ []) :
    paginate_amended w text ≠ [] := by
  rw [paginate_amended_eq]
  have hlen : text.length ≠ 0 := by simpa [List.length_eq_zero] using h
  simp only [hlen, if_false]
  split
  · simp
  · split <;> simp

/-- The `split_text` loop, run with sufficient fuel on ASCII text with
available width at least 2, returns the accumulated chunks followed by the
chunks of the amended pagination contract. -/
theorem split_text_go_eq_amended {w : Nat} (hw : 2 ≤ w) :
    ∀ fuel rest acc, ascii_runes rest → byteLen rest < fuel →
      split_text_go w acc rest fuel = .ok (acc ++ paginate_amended w rest) := by
  intro fuel
  induction fuel with
  | zero => intro rest acc _ h; omega
  | succ fuel ih =>
    intro rest acc hascii hlen
    have hlen_eq : byteLen rest = rest.length := byteLen_ascii hascii
    by_cases h0 : byteLen rest = 0
    · have hnil : rest = [] := byteLen_eq_zero.mp h0
      subst hnil
      simp [split_text_go, byteLen, paginate_amended_eq]
    · by_cases hfits : byteLen rest ≤ w
      · have : rest.length ≤ w := by omega
        have hlen0 : rest.length ≠ 0 := by omega
        simp [split_text_go, h0, hfits, paginate_amended_eq, hlen0, this]
      · have hw0 : w ≠ 0 := by omega
        have hlt : w - 1 ≤ rest.length := by omega
        have htk := byteTake_ascii hascii (w - 1) hlt
        have hdr := byteDrop_ascii hascii (w - 1) hlt
        have hascii' : ascii_runes (rest.drop (w - 1)) := fun x hx =>
          hascii x (List.drop_subset _ _ hx)
        have hlen' : byteLen (rest.drop (w - 1)) < fuel := by
          rw [byteLen_ascii hascii', List.length_drop]
          omega
        have hrec := ih (rest.drop (w - 1)) (acc ++ [rest.take (w - 1) ++ [ell]]) hascii' hlen'
        have hlen0 : rest.length ≠ 0 := by omega
        have hnfits : ¬ rest.length ≤ w := by omega
        have hpag : paginate_amended w rest =
            (rest.take (w - 1) ++ [ell]) :: paginate_amended w (rest.drop (w - 1)) := by
          rw [paginate_amended_eq]
          simp [hlen0, hnfits, hw]
        simp only [split_text_go, h0, if_false, hfits, hw0, htk, hdr]
        rw [hrec, hpag]
        simp [List.append_assoc]

/-- On ASCII text with available width at least 2, `split_text` returns
exactly the chunks of the amended pagination contract. -/
theorem split_text_eq_amended {text : List Nat} {character_limit : Nat}
    {adds : List Additional} (hascii : ascii_runes text)
    (hused : character_already_used adds ≤ character_limit)
    (hw : 2 ≤ character_limit - character_already_used adds) :
    split_text text character_limit adds =
      .ok (paginate_amended (character_limit - character_already_used adds) text) := by
  unfold split_text
  have hnot : ¬ character_limit < character_already_used adds := by omega
  simp only [hnot, if_false]
  have := split_text_go_eq_amended hw (byteLen text + 1) text [] hascii (by omega)
  simpa using this

/-- Every chunk produced by the amended contract holds at most `w` units. -/
theorem paginate_amended_chunk_le {w : Nat} (hw : 2 ≤ w) :
    ∀ n text, text.length ≤ n → ∀ c ∈ paginate_amended w text, c.length ≤ w := by
  intro n
  induction n with
  | zero =>
    intro text hlen c hc
    have : text = [] := by
      cases text with
      | nil => rfl
      | cons a t => simp at hlen
    subst this
    rw [paginate_amended_eq] at hc
    simp at hc
  | succ n ih =>
    intro text hlen c hc
    rw [paginate_amended_eq] at hc
    by_cases h0 : text.length = 0
    · simp [h0] at hc
    · by_cases hfits : text.length ≤ w
      · simp [h0, hfits] at hc
        subst hc
        exact hfits
      · simp only [h0, if_false, hfits, hw, if_true] at hc
        rcases List.mem_cons.mp hc with hc | hc
        · subst hc
          have h1 : (text.take (w - 1)).length ≤ w - 1 := by
            simp [List.length_take]
          simp only [List.length_append, List.length_singleton]
          omega
        · have hdrop : (text.drop (w - 1)).length ≤ n := by
            simp only [List.length_drop]
            omega
          exact ih (text.drop (w - 1)) hdrop c hc

/-- Undoing the amended pagination recovers the original text. -/
theorem unsplit_paginate_amended {w : Nat} (hw : 2 ≤ w) :
    ∀ n text, text.length ≤ n → unsplit (paginate_amended w text) = text := by
  intro n
  induction n with
  | zero =>
    intro text hlen
    have : text = [] := by
      cases text with
      | nil => rfl
      | cons a t => simp at hlen
    subst this
    rw [paginate_amended_eq]
    simp [unsplit]
  | succ n ih =>
    intro text hlen
    rw [paginate_amended_eq]
    by_cases h0 : text.length = 0
    · have : text = [] := List.length_eq_zero.mp h0
      subst this
      simp [unsplit]
    · by_cases hfits : text.length ≤ w
      · simp [h0, hfits, unsplit]
      · simp only [h0, if_false, hfits, hw, if_true]
        have hdnil : text.drop (w - 1) ≠ [] := by
          intro hh
          have := congrArg List.length hh
          simp only [List.length_drop, List.length_nil] at this
          omega
        have hrest : paginate_amended w (text.drop (w - 1)) ≠ [] :=
          paginate_amended_ne_nil hdnil
        obtain ⟨r2, rs, hr⟩ : ∃ r2 rs, paginate_amended w (text.drop (w - 1)) = r2 :: rs := by
          cases hpa : paginate_amended w (text.drop (w - 1)) with
          | nil => exact absurd hpa hrest
          | cons r2 rs => exact ⟨r2, rs, rfl⟩
        have hdrop : (text.drop (w - 1)).length ≤ n := by
          simp only [List.length_drop]
          omega
        have hihr := ih (text.drop (w - 1)) hdrop
        rw [hr]
        rw [hr] at hihr
        show (text.take (w - 1) ++ [ell]).dropLast ++ unsplit (r2 :: rs) = text
        rw [List.dropLast_concat, hihr, List.take_append_drop]

/-- With available width at least 2, every loop iteration strictly shortens
the text, so the loop cannot run out of (sufficient) fuel. -/
theorem split_text_go_ne_fuelOut {w : Nat} (hw : 2 ≤ w) :
    ∀ fuel rest acc, byteLen rest < fuel →
      split_text_go w acc rest fuel ≠ .fuelOut := by
  intro fuel
  induction fuel with
  | zero => intro rest acc h; omega
  | succ fuel ih =>
    intro rest acc hlen
    by_cases h0 : byteLen rest = 0
    · simp [split_text_go, h0]
    · by_cases hfits : byteLen rest ≤ w
      · simp [split_text_go, h0, hfits]
      · have hw0 : w ≠ 0 := by omega
        simp only [split_text_go, h0, if_false, hfits, hw0]
        cases htk : byteTake (w - 1) rest with
        | none => simp
        | some pre =>
          cases hdr : byteDrop (w - 1) rest with
          | none => simp
          | some suf =>
            simp only []
            have ⟨hk, hsuf⟩ := byteDrop_byteLen hdr
            have : byteLen suf < fuel := by omega
            exact ih suf (acc ++ [pre ++ [ell]]) this

/-- Text that already fits finishes in the first iteration, for any width. -/
theorem split_text_go_fits_ne_fuelOut {w : Nat} {rest : List Nat} {acc : List (List Nat)}
    {fuel : Nat} (hfits : byteLen rest ≤ w) :
    split_text_go w acc rest (fuel + 1) ≠ .fuelOut := by
  by_cases h0 : byteLen rest = 0
  · simp [split_text_go, h0]
  · simp [split_text_go, h0, hfits]

/-- With available width exactly 1, an iteration pushes a bare ellipsis and
advances by `1 - 1 = 0` bytes, leaving the text unchanged: the loop never
terminates, i.e. it exhausts every fuel bound. -/
theorem split_text_go_width_one :
    ∀ fuel acc rest, 1 < byteLen rest → split_text_go 1 acc rest fuel = .fuelOut := by
  intro fuel
  induction fuel with
  | zero => intro acc rest _; rfl
  | succ fuel ih =>
    intro acc rest hlen
    have h0 : byteLen rest ≠ 0 := by omega
    have hfits : ¬ byteLen rest ≤ 1 := by omega
    simp only [split_text_go, h0, if_false, hfits]
    rw [show (1 : Nat) - 1 = 0 from rfl, byteTake_zero, byteDrop_zero]
    simp only []
    exact ih (acc ++ [[] ++ [ell]]) rest hlen

theorem str_append_assoc (a b c : String) : a ++ b ++ c = a ++ (b ++ c) := by
  apply String.ext
  show a.data ++ b.data ++ c.data = a.data ++ (b.data ++ c.data)
  exact List.append_assoc _ _ _

theorem reply_calls_length (suffix : String) (outputs : Nat → PostStatusOutputM) :
    ∀ ts k reply_id, (reply_calls suffix outputs ts k reply_id).length = ts.length := by
  intro ts
  induction ts with
  | nil => intro k rid; rfl
  | cons t ts ih =>
    intro k rid
    simp [reply_calls, ih]

/-- Shape of the `i`-th reply call: it posts the `i`-th remaining chunk and
its parent is the id of the previous call (`reply_id` for the first one, the
id extracted from call `k + i - 1` otherwise). -/
theorem reply_calls_getElem? (suffix : String) (outputs : Nat → PostStatusOutputM) :
    ∀ ts k reply_id i,
      (reply_calls suffix outputs ts k reply_id)[i]? =
        (ts[i]?).map (fun t => PostCall.reply (t ++ suffix)
          (if i = 0 then reply_id else output_id (outputs (k + i - 1)))) := by
  intro ts
  induction ts with
  | nil => intro k rid i; simp [reply_calls]
  | cons t ts ih =>
    intro k rid i
    cases i with
    | zero => simp [reply_calls]
    | succ i =>
      simp only [reply_calls, List.getElem?_cons_succ, ih (k + 1) (output_id (outputs k)) i]
      cases hov : ts[i]? with
      | none => simp [hov]
      | some tt =>
        simp only [hov, Option.map_some']
        by_cases hi : i = 0
        · subst hi
          simp
        · have h1 : k + 1 + i - 1 = k + (i + 1) - 1 := by omega
          simp [hi, h1]

theorem str_append_nil (s : String) : s ++ "" = s := by
  apply String.ext
  show s.data ++ [] = s.data
  exact List.append_nil _

theorem flavour_text_eq (cf : CardOrFace) :
    flavour_text cf = match cf_flavor cf with
      | some f => "\n\n" ++ f
      | none => "" := by
  cases cf <;> rfl

theorem power_and_toughness_eq (cf : CardOrFace) :
    power_and_toughness cf = "\n\n" ++ cf_power cf ++ "/" ++ cf_toughness cf := by
  cases cf <;> rfl

/-- `format_face` succeeds on every face that carries a type line. -/
theorem format_face_ok {fc : CardFace} {tl : String} (htl : fc.type_line = some tl) :
    ∃ s, format_face fc = .ok s := by
  simp only [format_face, htl]
  split
  · exact ⟨_, rfl⟩
  · exact ⟨_, rfl⟩

/-- `collect_results` succeeds when the function succeeds on every element. -/
theorem collect_results_all_ok {g : α → Except ε β} :
    ∀ {l : List α}, (∀ x ∈ l, ∃ y, g x = .ok y) →
      ∃ ys, collect_results g l = .ok ys := by
  intro l
  induction l with
  | nil => intro _; exact ⟨[], rfl⟩
  | cons x xs ih =>
    intro h
    obtain ⟨y, hy⟩ := h x (List.mem_cons_self x xs)
    obtain ⟨ys, hys⟩ := ih (fun z hz => h z (List.mem_cons_of_mem x hz))
    exact ⟨y :: ys, by simp [collect_results, hy, hys]⟩

/-- A successful `collect_results` run returns one output per input, in
order: position `i` of the output is exactly the success of `g` on
position `i` of the input. -/
theorem collect_results_ok {g : α → Except ε β} :
    ∀ {l : List α} {ys : List β}, collect_results g l = .ok ys →
      ys.length = l.length ∧ ∀ i : Nat, (ys[i]?).map Except.ok = (l[i]?).map g := by
  intro l
  induction l with
  | nil =>
    intro ys h
    simp only [collect_results] at h
    cases h
    exact ⟨rfl, fun i => by simp⟩
  | cons x xs ih =>
    intro ys h
    simp only [collect_results] at h
    cases hg : g x with
    | error e => rw [hg] at h; cases h
    | ok y =>
      rw [hg] at h
      cases hrec : collect_results g xs with
      | error e => rw [hrec] at h; cases h
      | ok ys' =>
        rw [hrec] at h
        cases h
        obtain ⟨hlen, hget⟩ := ih hrec
        refine ⟨by simp [hlen], fun i => ?_⟩
        cases i with
        | zero => simp [hg]
        | succ i => simpa using hget i

/-- C1, counterexample.  The claimed loop ("when the remaining text fits in
the available width it emits it unchanged") emits one empty chunk on empty
input, while `split_text` emits none (`while text_to_split.len() > 0`); and
the claimed loop counts characters, while `split_text` counts bytes: on
`"ββββ"` with limit 4 the text fits in 4 characters for the claimed loop,
but the code byte-slices at index 3, which falls inside a 2-byte character
and panics. -/
theorem c1_counterexample :
    split_text (strToRunes "") 5 [] = .ok [] ∧
    paginate_claimed (strToRunes "") 5 [] = .ok [strToRunes ""] ∧
    split_text (strToRunes "ββββ") 4 [] = .panicked ∧
    paginate_claimed (strToRunes "ββββ") 4 [] = .ok [strToRunes "ββββ"] := by
  decide

/-- C1, amended.  All lengths are UTF-8 byte counts (on ASCII text bytes and
characters coincide; non-ASCII text can hit a byte slice inside a character,
a panic).  While the remaining text is nonempty and longer than the
available width, the code emits the first (width − 1) bytes followed by one
ellipsis and advances past exactly those bytes; a nonempty remainder that
fits is emitted unchanged; an empty input or remainder emits nothing.  In
particular `paginate("0123456789", 5, [])` returns
`["0123…", "4567…", "89"]`. -/
theorem c1_amended :
    (∀ (text : List Nat) (character_limit : Nat) (adds : List Additional),
      ascii_runes text → character_already_used adds ≤ character_limit →
      2 ≤ character_limit - character_already_used adds →
      split_text text character_limit adds =
        .ok (paginate_amended (character_limit - character_already_used adds) text)) ∧
    split_text (strToRunes "0123456789") 5 [] =
      .ok [strToRunes "0123…", strToRunes "4567…", strToRunes "89"] := by
  constructor
  · intro text character_limit adds hascii hused hw
    exact split_text_eq_amended hascii hused hw
  · decide

/-- C1, witness for the amended theorem. -/
theorem c1_witness :
    split_text (strToRunes "abcdef") 4 [] =
      .ok (paginate_amended 4 (strToRunes "abcdef")) :=
  c1_amended.1 (strToRunes "abcdef") 4 [] (by decide) (by decide) (by decide)

/-- C2, counterexample.  `split_text` does not count Unicode scalars: the
five-scalar text `"ααααα"` fits in a limit of 5 scalars, yet the code
(counting its 10 UTF-8 bytes) splits it into three chunks, unlike the
claimed per-scalar paginator. -/
theorem c2_counterexample :
    (strToRunes "ααααα").length ≤ 5 ∧
    split_text (strToRunes "ααααα") 5 [] =
      .ok [strToRunes "αα…", strToRunes "αα…", strToRunes "α"] ∧
    paginate_claimed (strToRunes "ααααα") 5 [] = .ok [strToRunes "ααααα"] ∧
    split_text (strToRunes "ααααα") 5 [] ≠ paginate_claimed (strToRunes "ααααα") 5 [] := by
  decide

/-- C2, amended.  Limits and reserved lengths are measured in UTF-8 bytes,
not Unicode scalars, and the appended 3-byte ellipsis is not charged
against the consumed budget at all.  For ASCII text (one byte per scalar)
with available width at least 2, every emitted chunk still holds at most
the available width of Unicode scalars, the ellipsis counting as one. -/
theorem c2_amended (text : List Nat) (character_limit : Nat) (adds : List Additional)
    (hascii : ascii_runes text)
    (hused : character_already_used adds ≤ character_limit)
    (hw : 2 ≤ character_limit - character_already_used adds) :
    ∃ cs, split_text text character_limit adds = .ok cs ∧
      ∀ c ∈ cs, c.length ≤ character_limit - character_already_used adds :=
  ⟨paginate_amended (character_limit - character_already_used adds) text,
    split_text_eq_amended hascii hused hw,
    fun c hc =>
      paginate_amended_chunk_le hw text.length text (Nat.le_refl _) c hc⟩

/-- C2, witness for the amended theorem. -/
theorem c2_witness :
    ∃ cs, split_text (strToRunes "hello world") 8 [Additional.number 2] = .ok cs ∧
      ∀ c ∈ cs, c.length ≤ 8 - character_already_used [Additional.number 2] :=
  c2_amended (strToRunes "hello world") 8 [Additional.number 2]
    (by decide) (by decide) (by decide)

/-- C3, counterexample.  With reservations exceeding the limit (here 7 > 5)
`split_text` does not signal a `BudgetExhausted` error — no such variant
exists in `error.rs` and the function's return type `Vec<String>` cannot
carry one.  The unchecked `usize` subtraction underflows, a panic under
Rust's checked arithmetic semantics. -/
theorem c3_counterexample :
    split_text (strToRunes "0123456789") 5 [Additional.number 7] = .panicked := by
  decide

/-- C3, amended.  When the reserved lengths exceed the limit the subtraction
`character_limit - character_already_used` underflows and the program
panics; when they exactly exhaust the limit and the text is nonempty, the
loop's `number_of_characters - 1` underflows and the program panics.  In
neither case is a typed configuration error returned to the caller. -/
theorem c3_amended :
    (∀ (text : List Nat) (character_limit : Nat) (adds : List Additional),
      character_limit < character_already_used adds →
      split_text text character_limit adds = .panicked) ∧
    (∀ (text : List Nat) (character_limit : Nat) (adds : List Additional),
      character_already_used adds = character_limit → text ≠ [] →
      split_text text character_limit adds = .panicked) := by
  constructor
  · intro text character_limit adds h
    simp [split_text, h]
  · intro text character_limit adds hused hne
    have h0 : byteLen text ≠ 0 := fun hc => hne (byteLen_eq_zero.mp hc)
    have hnot : ¬ character_limit < character_already_used adds := by omega
    have hw : character_limit - character_already_used adds = 0 := by omega
    simp only [split_text, hnot, if_false, hw]
    obtain ⟨fuel, hfuel⟩ : ∃ fuel, byteLen text + 1 = fuel + 1 := ⟨byteLen text, rfl⟩
    rw [hfuel]
    have hle : ¬ byteLen text ≤ 0 := by omega
    simp [split_text_go, h0, hle]

/-- C3, witness for the amended theorem. -/
theorem c3_witness :
    split_text (strToRunes "hi") 3 [Additional.number 9] = .panicked ∧
    split_text (strToRunes "hi") 4 [Additional.number 4] = .panicked :=
  ⟨c3_amended.1 (strToRunes "hi") 3 [Additional.number 9] (by decide),
   c3_amended.2 (strToRunes "hi") 4 [Additional.number 4] (by decide) (by decide)⟩

/-- C4, counterexample.  On a creature with both flavor text and
power/toughness, `format_creature` places the flavor text *before* the
power/toughness line, and on a vanguard card `format_vanguard` places the
stat block *before* the flavor text — the opposite of the claimed order in
both cases (the rendered blocks are shown literally; positions are indices
of the first occurrence). -/
theorem c4_counterexample :
    format_creature (CardOrFace.card bearCard) =
      "Grizzly Bears\t{1}{G}\nCreature — Bear\n\nFerocious.\n\n2/2" ∧
    first_sub_pos "Ferocious.".toList
        (format_creature (CardOrFace.card bearCard)).toList <
      first_sub_pos "2/2".toList (format_creature (CardOrFace.card bearCard)).toList ∧
    format_vanguard (CardOrFace.card ertaiCard) =
      "Ertai\nVanguard\nCreatures you control have hexproof.\n\nHand Size: -1\nStarting Life: +4\n\nA wizard of renown." ∧
    first_sub_pos "Hand Size:".toList
        (format_vanguard (CardOrFace.card ertaiCard)).toList <
      first_sub_pos "A wizard of renown.".toList
        (format_vanguard (CardOrFace.card ertaiCard)).toList := by
  decide

/-- C4, amended.  For every record with flavor text present, the block
composed by `format_creature` ends with the flavor text block followed by
the power/toughness line (flavor before P/T); for every vanguard card with
both stat modifiers and flavor text, the block composed by
`format_vanguard` ends with the stat block followed by the flavor text
block (stats before flavor). -/
theorem c4_amended :
    (∀ (cf : CardOrFace) (f : String), cf_flavor cf = some f →
      ∃ pre, format_creature cf =
        pre ++ ("\n\n" ++ f) ++ ("\n\n" ++ cf_power cf ++ "/" ++ cf_toughness cf)) ∧
    (∀ (c : Card) (h l f : String), c.hand_modifier = some h →
      c.life_modifier = some l → c.flavor_text = some f →
      ∃ pre, format_vanguard (CardOrFace.card c) =
        pre ++ ("\n\nHand Size: " ++ h ++ "\nStarting Life: " ++ l) ++ ("\n\n" ++ f)) := by
  constructor
  · intro cf f hf
    refine ⟨name_and_mana_cost cf ++ type_line cf ++ oracle_text cf, ?_⟩
    rw [format_creature, flavour_text_eq, hf, power_and_toughness_eq]
  · intro c h l f hh hl hf
    refine ⟨name_and_mana_cost (CardOrFace.card c) ++ type_line (CardOrFace.card c) ++
      oracle_text (CardOrFace.card c), ?_⟩
    rw [format_vanguard, flavour_text_eq]
    show _ ++ vanguard_stats (CardOrFace.card c) ++ _ = _
    simp only [vanguard_stats, hh, hl, cf_flavor, hf]

/-- C4, witness for the amended theorem. -/
theorem c4_witness :
    (∃ pre, format_creature (CardOrFace.card bearCard) =
      pre ++ ("\n\n" ++ "Ferocious.") ++
        ("\n\n" ++ cf_power (CardOrFace.card bearCard) ++ "/" ++
          cf_toughness (CardOrFace.card bearCard))) ∧
    (∃ pre, format_vanguard (CardOrFace.card ertaiCard) =
      pre ++ ("\n\nHand Size: " ++ "-1" ++ "\nStarting Life: " ++ "+4") ++
        ("\n\n" ++ "A wizard of renown.")) :=
  ⟨c4_amended.1 (CardOrFace.card bearCard) "Ferocious." rfl,
   c4_amended.2 ertaiCard "-1" "+4" "A wizard of renown." rfl rfl rfl⟩

/-- C5, counterexample.  Sub-type dispatch is not first-match-wins past the
`Planeswalker` branch: the `Vanguard` branch of `format_normal_layout` does
not return, so a card whose type line is `"Vanguard Land"` receives the
vanguard section set *and* the non-creature section set, concatenated —
not exactly one category's sections. -/
theorem c5_counterexample :
    format_normal_layout vanguardLandCard =
      .ok [format_vanguard (CardOrFace.card vanguardLandCard) ++
        format_non_creature (CardOrFace.card vanguardLandCard) ++ "" ++
        artist (CardOrFace.card vanguardLandCard)] ∧
    format_normal_layout vanguardLandCard ≠
      .ok [format_vanguard (CardOrFace.card vanguardLandCard) ++
        artist (CardOrFace.card vanguardLandCard)] ∧
    format_normal_layout vanguardLandCard ≠
      .ok [format_non_creature (CardOrFace.card vanguardLandCard) ++
        artist (CardOrFace.card vanguardLandCard)] := by
  decide

/-- C5, amended.  The `Creature` and `Planeswalker` categories are tested
first and return early, so they are exclusive; the `Vanguard`,
non-creature-set and exact-`"Token"` tests are independent checks whose
section sets are appended cumulatively, in that order, to the same block —
a type line containing both `Vanguard` and `Land` gets both section sets
concatenated. -/
theorem c5_amended :
    (∀ (c : Card) (tl : String), c.type_line = some tl →
      contains_str tl "Creature" = true →
      format_normal_layout c = .ok [format_creature (CardOrFace.card c) ++
        artist (CardOrFace.card c)]) ∧
    (∀ (c : Card) (tl : String), c.type_line = some tl →
      contains_str tl "Creature" = false →
      contains_str tl "Planeswalker" = false →
      contains_str tl "Vanguard" = true →
      contains_str tl "Land" = true →
      format_normal_layout c = .ok [format_vanguard (CardOrFace.card c) ++
        format_non_creature (CardOrFace.card c) ++ artist (CardOrFace.card c)]) := by
  constructor
  · intro c tl htl hC
    simp [format_normal_layout, htl, hC]
  · intro c tl htl hC hP hV hL
    have hTok : tl ≠ "Token" := by
      intro h
      subst h
      exact absurd hV (by decide)
    simp only [format_normal_layout, htl, hC, hP, hV, hL, Bool.false_eq_true, if_false,
      if_true, Bool.or_true, Bool.true_or, if_neg hTok]
    rw [str_append_nil]

/-- C5, witness for the amended theorem. -/
theorem c5_witness :
    format_normal_layout creatureLandCard =
      .ok [format_creature (CardOrFace.card creatureLandCard) ++
        artist (CardOrFace.card creatureLandCard)] ∧
    format_normal_layout vanguardLandCard =
      .ok [format_vanguard (CardOrFace.card vanguardLandCard) ++
        format_non_creature (CardOrFace.card vanguardLandCard) ++
        artist (CardOrFace.card vanguardLandCard)] :=
  ⟨c5_amended.1 creatureLandCard "Land Creature — Forest Dryad" rfl (by decide),
   c5_amended.2 vanguardLandCard "Vanguard Land" rfl (by decide) (by decide)
     (by decide) (by decide)⟩

/-- C6, counterexample.  No layout with a missing face list produces a
typed `DataIntegrityFailure` — `error.rs` has no such variant.  On a
`Transform` (separate-images) card, `format_card` and `get_artist` both
call `card.card_faces.clone().unwrap()`, a panic: an unsignaled process
abort, not an error value.  On a `Split` (shared-image) card, rendering
panics the same way, but `get_artist` falls to its `_ => Ok(None)` arm
without ever inspecting the face list: it returns `None` and signals
nothing at all. -/
theorem c6_counterexample :
    format_card transformNoFacesCard = .error .panicked ∧
    get_artist transformNoFacesCard = .error .panicked ∧
    format_card splitNoFacesCard = .error .panicked ∧
    get_artist splitNoFacesCard = .ok none := by
  decide

/-- C6, amended.  For every card of the eight multi-face layouts (shared
image or separate images) whose face list is absent, rendering panics
(`Option::unwrap` on `None`) instead of returning a typed error; artist
extraction likewise panics for the five separate-image layouts, while for
the three shared-image layouts it never reads the face list and returns
`Ok(None)`, signalling nothing. -/
theorem c6_amended :
    (∀ c : Card, (c.layout = .split ∨ c.layout = .flip ∨ c.layout = .adventure ∨
        c.layout = .transform ∨ c.layout = .modalDfc ∨ c.layout = .reversibleCard ∨
        c.layout = .doubleFacedToken ∨ c.layout = .artSeries) →
      c.card_faces = none → format_card c = .error .panicked) ∧
    (∀ c : Card, (c.layout = .transform ∨ c.layout = .modalDfc ∨
        c.layout = .reversibleCard ∨ c.layout = .doubleFacedToken ∨
        c.layout = .artSeries) →
      c.card_faces = none → get_artist c = .error .panicked) ∧
    (∀ c : Card, (c.layout = .split ∨ c.layout = .flip ∨ c.layout = .adventure) →
      c.card_faces = none → get_artist c = .ok none) := by
  refine ⟨?_, ?_, ?_⟩
  · intro c hl hf
    rcases hl with h | h | h | h | h | h | h | h <;>
      simp [format_card, h, format_single_image_multiple_faces_layout,
        format_multiple_faces_layout, hf]
  · intro c hl hf
    rcases hl with h | h | h | h | h <;> simp [get_artist, h, hf]
  · intro c hl _
    rcases hl with h | h | h <;> simp [get_artist, h]

/-- C6, witness for the amended theorem. -/
theorem c6_witness :
    format_card mdfcNoFacesCard = .error .panicked ∧
    get_artist mdfcNoFacesCard = .error .panicked ∧
    format_card flipNoFacesCard = .error .panicked ∧
    get_artist flipNoFacesCard = .ok none :=
  ⟨c6_amended.1 mdfcNoFacesCard
      (Or.inr (Or.inr (Or.inr (Or.inr (Or.inl rfl))))) rfl,
   c6_amended.2.1 mdfcNoFacesCard (Or.inr (Or.inl rfl)) rfl,
   c6_amended.1 flipNoFacesCard (Or.inr (Or.inl rfl)) rfl,
   c6_amended.2.2 flipNoFacesCard (Or.inr (Or.inl rfl)) rfl⟩

/-- C7, confirmed.  For every separate-images card with a nonempty face
list (every face carrying a type line, as the data model guarantees),
`format_card` returns exactly one display string per face, in face order
(position `i` of the output is the rendering of face `i`), and `get_artist`
returns the artist-credit string computed from the first face alone, which
is `"\n\nIllustrated by X"` whenever that face credits artist `X`. -/
theorem c7_separate_images (c : Card) (f : CardFace) (rest : List CardFace)
    (hl : c.layout = .transform ∨ c.layout = .modalDfc ∨ c.layout = .reversibleCard ∨
      c.layout = .doubleFacedToken ∨ c.layout = .artSeries)
    (hf : c.card_faces = some (f :: rest))
    (htl : ∀ fc ∈ f :: rest, fc.type_line.isSome) :
    ∃ ss, format_card c = .ok ss ∧ ss.length = (f :: rest).length ∧
      (∀ i : Nat, (ss[i]?).map Except.ok = ((f :: rest)[i]?).map format_face) ∧
      get_artist c = .ok (some (artist (CardOrFace.face f))) ∧
      (∀ a, f.artist = some a →
        artist (CardOrFace.face f) = "\n\nIllustrated by " ++ a) := by
  have hok : ∀ fc ∈ f :: rest, ∃ s, format_face fc = .ok s := by
    intro fc hfc
    obtain ⟨tl, htl'⟩ := Option.isSome_iff_exists.mp (htl fc hfc)
    exact format_face_ok htl'
  obtain ⟨ss, hss⟩ := collect_results_all_ok hok
  obtain ⟨hlen, hget⟩ := collect_results_ok hss
  have hfc : format_card c = collect_results format_face (f :: rest) := by
    rcases hl with h | h | h | h | h <;>
      simp [format_card, h, format_multiple_faces_layout, hf]
  have hga : get_artist c = .ok (some (artist (CardOrFace.face f))) := by
    rcases hl with h | h | h | h | h <;> simp [get_artist, h, hf]
  exact ⟨ss, by rw [hfc, hss], hlen, hget, hga, fun a ha => by simp [artist, ha]⟩

/-- C7, witness. -/
theorem c7_witness :
    ∃ ss, format_card kytheonCard = .ok ss ∧
      ss.length = ([kytheonFace, gideonFace] : List CardFace).length ∧
      (∀ i : Nat, (ss[i]?).map Except.ok =
        (([kytheonFace, gideonFace] : List CardFace)[i]?).map format_face) ∧
      get_artist kytheonCard = .ok (some (artist (CardOrFace.face kytheonFace))) ∧
      (∀ a, kytheonFace.artist = some a →
        artist (CardOrFace.face kytheonFace) = "\n\nIllustrated by " ++ a) :=
  c7_separate_images kytheonCard kytheonFace [gideonFace] (Or.inl rfl) rfl (by decide)

/-- C8, confirmed.  On the success path, `post` issues exactly one root call
(carrying the media ids and chunk 0) followed by one reply per remaining
chunk, in chunk order, and — whenever every call returns a status — the
parent id of the `n`-th call equals the id returned by call `n - 1`; the
parent is extracted from the previous call's result before the next call is
built, so no reply precedes its parent's id. -/
theorem c8_thread_protocol (texts : List String) (suffix : String) (media : List String)
    (outputs : Nat → PostStatusOutputM) (ids : Nat → String)
    (hne : texts ≠ []) (hst : ∀ n, outputs n = .status (ids n)) :
    ∃ calls, post_call_sequence texts suffix media outputs = some calls ∧
      calls.length = texts.length ∧
      calls[0]? = (texts[0]?).map (fun t => PostCall.root (t ++ suffix) media) ∧
      (∀ n : Nat, 1 ≤ n →
        calls[n]? = (texts[n]?).map (fun t => PostCall.reply (t ++ suffix) (ids (n - 1)))) := by
  have hid : ∀ k, output_id (outputs k) = ids k := by
    intro k
    rw [hst k]
    rfl
  cases texts with
  | nil => exact absurd rfl hne
  | cons t ts =>
    refine ⟨_, rfl, ?_, ?_, ?_⟩
    · simp [reply_calls_length]
    · simp
    · intro n hn
      obtain ⟨m, rfl⟩ : ∃ m, n = m + 1 := ⟨n - 1, by omega⟩
      have harith : m + 1 - 1 = m := by omega
      simp only [List.getElem?_cons_succ, harith]
      rw [reply_calls_getElem?]
      have hpar : (if m = 0 then output_id (outputs 0)
          else output_id (outputs (1 + m - 1))) = ids m := by
        by_cases hm : m = 0
        · subst hm
          simp [hid]
        · have h1 : 1 + m - 1 = m := by omega
          simp [hm, h1, hid]
      rw [hpar]

/-- C8, witness. -/
theorem c8_witness :
    ∃ calls, post_call_sequence ["a", "b", "c"] "S" ["m1"]
        (fun _ => PostStatusOutputM.status "x") = some calls ∧
      calls.length = (["a", "b", "c"] : List String).length ∧
      calls[0]? = ((["a", "b", "c"] : List String)[0]?).map
        (fun t => PostCall.root (t ++ "S") ["m1"]) ∧
      (∀ n : Nat, 1 ≤ n →
        calls[n]? = ((["a", "b", "c"] : List String)[n]?).map
          (fun t => PostCall.reply (t ++ "S") ((fun _ => "x") (n - 1)))) :=
  c8_thread_protocol ["a", "b", "c"] "S" ["m1"] (fun _ => PostStatusOutputM.status "x")
    (fun _ => "x") (by simp) (fun _ => rfl)

/-- C9, confirmed.  For ASCII text and available width at least 2,
`split_text` succeeds and concatenating its chunks after removing the
single trailing ellipsis of every chunk but the last recovers the input
exactly: no characters lost, duplicated or reordered. -/
theorem c9_round_trip (text : List Nat) (character_limit : Nat) (adds : List Additional)
    (hascii : ascii_runes text)
    (hused : character_already_used adds ≤ character_limit)
    (hw : 2 ≤ character_limit - character_already_used adds) :
    ∃ cs, split_text text character_limit adds = .ok cs ∧ unsplit cs = text :=
  ⟨paginate_amended (character_limit - character_already_used adds) text,
    split_text_eq_amended hascii hused hw,
    unsplit_paginate_amended hw text.length text (Nat.le_refl _)⟩

/-- C9, witness. -/
theorem c9_witness :
    ∃ cs, split_text (strToRunes "The quick brown fox") 10
        [Additional.text (strToRunes "xy")] = .ok cs ∧
      unsplit cs = strToRunes "The quick brown fox" :=
  c9_round_trip (strToRunes "The quick brown fox") 10 [Additional.text (strToRunes "xy")]
    (by decide) (by decide) (by decide)

/-- C10, confirmed.  `split_text` terminates (its loop cannot exhaust any
sufficient fuel bound) whenever the available width is at least 2 or the
text already fits; with available width exactly 1 and text longer than one
character, each iteration slices off `1 - 1 = 0` bytes, the remaining text
never shrinks, and the loop exhausts every fuel bound — the function does
not terminate. -/
theorem c10_termination :
    (∀ (text : List Nat) (character_limit : Nat) (adds : List Additional),
      character_already_used adds ≤ character_limit →
      (2 ≤ character_limit - character_already_used adds ∨
        byteLen text ≤ character_limit - character_already_used adds) →
      split_text text character_limit adds ≠ .fuelOut) ∧
    (∀ (text : List Nat) (character_limit : Nat) (adds : List Additional),
      character_already_used adds ≤ character_limit →
      character_limit - character_already_used adds = 1 → 1 < text.length →
      split_text text character_limit adds = .fuelOut ∧
        ∀ fuel acc, split_text_go 1 acc text fuel = .fuelOut) := by
  constructor
  · intro text character_limit adds hused hcase
    have hnot : ¬ character_limit < character_already_used adds := by omega
    simp only [split_text, hnot, if_false]
    rcases hcase with hw | hfits
    · exact split_text_go_ne_fuelOut hw (byteLen text + 1) text [] (by omega)
    · exact split_text_go_fits_ne_fuelOut hfits
  · intro text character_limit adds hused hw hlen
    have hblen : 1 < byteLen text := Nat.lt_of_lt_of_le hlen (length_le_byteLen text)
    have hnot : ¬ character_limit < character_already_used adds := by omega
    constructor
    · simp only [split_text, hnot, if_false, hw]
      exact split_text_go_width_one (byteLen text + 1) [] text hblen
    · intro fuel acc
      exact split_text_go_width_one fuel acc text hblen

/-- C10, witness. -/
theorem c10_witness :
    split_text (strToRunes "0123456789") 5 [] ≠ .fuelOut ∧
    split_text (strToRunes "0123456789") 3 [Additional.number 2] = .fuelOut :=
  ⟨c10_termination.1 (strToRunes "0123456789") 5 [] (by decide) (Or.inl (by decide)),
   (c10_termination.2 (strToRunes "0123456789") 3 [Additional.number 2]
     (by decide) (by decide) (by decide)).1⟩
